import Mathlib

/-!
Shallow embedding of the quadrature-decoding pipeline of
`src/python_scripts/parse_encoder_data.py` (the core specified by `spec.md`).

Modelling conventions:
* A pandas dataframe row becomes the structure `Enc.Samp`; columns the pipeline
  has not yet filled keep their default values.
* Python floats become `ℚ` (the pipeline only adds, subtracts and divides).
* The 0/1 logic-analyzer channels become `Bool` (false = 0, true = 1).
* Python `ValueError` raises become `Except String`.
* The function attributes `detect_direction_of_motion.current_direction`,
  `detect_change_in_angular_position.last_direction` and
  `detect_change_in_angular_position.current_angle` are process-persistent
  mutable state in the source; they are modelled by explicit state parameters
  (`PersistentState`) threaded through the pipeline, with the same entry/exit
  resets the source performs.
-/

namespace Enc

/-- `ENCODER_RESOLUTION = 2048.0` (module-scope constant in the source). -/
def ENCODER_RESOLUTION : ℚ := 2048

/-- `ENCODER_POSITION_STEP_SIZE_DEG = 360.0/ENCODER_RESOLUTION`, here
parametrised by the resolution so that scenarios with resolution 4 can be
stated as well. -/
def position_step_size_deg (resolution : ℚ) : ℚ := 360 / resolution

/-- One row of the capture dataframe.  Fields mirror the dataframe columns:
`#Time (s)`, the two DIO channels, `timestamp_normalized_s`,
`matches_initial_position`, `current_position_bitmask`,
`previous_position_bitmask`, `change_occurred`, `direction`, `angle_deg`,
`velocity_deg_per_s`.  A column not yet produced holds its default value. -/
structure Samp where
  timestamp : ℚ := 0
  chanA : Bool := false
  chanB : Bool := false
  timestamp_normalized_s : ℚ := 0
  matches_initial_position : Nat := 0
  current_position_bitmask : String := ""
  previous_position_bitmask : String := ""
  change_occurred : Nat := 0
  direction : String := ""
  angle_deg : ℚ := 0
  velocity_deg_per_s : ℚ := 0
deriving Repr, DecidableEq

/-- A raw input row as loaded from the csv: timestamp plus the two channels. -/
def mkRaw (t : ℚ) (a b : Bool) : Samp :=
  { timestamp := t, chanA := a, chanB := b }

/-- Default row used with `List.getD` when stating index-wise properties. -/
def dummySamp : Samp := {}

/-- The persistent function-attribute state of the source module: the
attributes of `detect_direction_of_motion` and
`detect_change_in_angular_position`. -/
structure PersistentState where
  current_direction : String := ""
  last_direction : Option String := none
  current_angle : ℚ := 0
deriving Repr, DecidableEq

/-- `normalize_timestamps`: subtract the first row's timestamp from every
row's timestamp into `timestamp_normalized_s` (source lines 160-181).  The
source indexes `df.at[0, ...]`, so an empty frame is outside its domain; it is
mapped to the empty list here. -/
def normalize_timestamps : List Samp → List Samp
  | [] => []
  | x0 :: rest =>
    (x0 :: rest).map fun r =>
      { r with timestamp_normalized_s := r.timestamp - x0.timestamp }

/-- First index at which a boolean series holds, else 0: the value of
`pandas.Series.idxmax` on a boolean series (first `True`, or index 0 when the
series is all `False`). -/
def idxmax_bool : List Bool → Nat
  | [] => 0
  | b :: bs => if b then 0 else (idxmax_bool bs) + 1

/-- `idxmax_bool` of an all-`False` series: pandas returns the first index.
The recursion above adds 1 per skipped entry, so the all-`False` case must be
collapsed back to 0; this wrapper applies the collapse exactly when no entry
holds, matching `idxmax`. -/
def idxmax_bool_total (bs : List Bool) : Nat :=
  if bs.any id then idxmax_bool bs else 0

/-- `detect_initial_stable_angular_position` (source lines 184-223): add the
`matches_initial_position` column comparing each row's channels with row 0's,
and report `(df["matches_initial_position"] < 1).idxmax()` — the first index
whose reading differs from the initial reading (0 when none differs).  The
temporary `change_occurred` column the source adds is dropped again before
returning and is not modelled.  Returns the updated rows and the reported
index. -/
def detect_initial_stable_angular_position : List Samp → List Samp × Nat
  | [] => ([], 0)
  | x0 :: rest =>
    let ys := (x0 :: rest).map fun r =>
      { r with matches_initial_position :=
          if r.chanA == x0.chanA && r.chanB == x0.chanB then 1 else 0 }
    (ys, idxmax_bool_total (ys.map fun r => decide (r.matches_initial_position < 1)))

/-- Python `bin(n)` without the `"0b"` prefix, for `n : Nat`. -/
def py_bin (n : Nat) : String := (Nat.toDigits 2 n).asString

/-- Python `str.zfill(2)`. -/
def zfill2 (s : String) : String :=
  if s.length < 2 then String.mk (List.replicate (2 - s.length) '0') ++ s else s

/-- The row lambda of `generate_encoder_position_bitmask`:
`bin((a << 1) | b).replace("0b", "").zfill(2)`. -/
def encode_bitmask (a b : Bool) : String :=
  zfill2 (py_bin (((cond a 1 0) <<< 1) ||| (cond b 1 0)))

/-- `generate_encoder_position_bitmask` (source lines 226-256): fill
`current_position_bitmask` from each row's channels and
`previous_position_bitmask` from the previous row's channels, the first row
using itself (`shift(fill_value = row 0's channels)`). -/
def bitmask_row (prev cur : Samp) : Samp :=
  { cur with
    current_position_bitmask := encode_bitmask cur.chanA cur.chanB,
    previous_position_bitmask := encode_bitmask prev.chanA prev.chanB }

def generate_encoder_position_bitmask : List Samp → List Samp
  | [] => []
  | x0 :: rest => List.zipWith bitmask_row (x0 :: x0 :: rest) (x0 :: rest)

/-- `bitmask_cw_pattern = ["00", "01", "11", "10"]` (source line 261). -/
def bitmask_cw_pattern : List String := ["00", "01", "11", "10"]

/-- The per-row part of `detect_direction_of_motion`: set `change_occurred`
to 0 when the current and previous bitmasks coincide, else 1 (source lines
265-266, `map({True: 0, False: 1})`). -/
def set_change_occurred (r : Samp) : Samp :=
  { r with change_occurred :=
      if r.current_position_bitmask == r.previous_position_bitmask then 0 else 1 }

/-- `check_direction` (source lines 268-298).  `list.index` raises on a value
not in the list, so both lookups are guarded first; for an unchanged row the
direction is the empty string (the source's `UNCHANGED` marker); for a changed
row the cyclically next pattern entry means `"CW"`, the previous one `"CCW"`,
anything else raises the illegal-transition `ValueError`.  Python's `%` on a
negative left operand is nonnegative, matching `Int` `%` here. -/
def check_direction (r : Samp) : Except String String :=
  if ¬ (bitmask_cw_pattern.contains r.current_position_bitmask) then
    .error "ValueError: substring not found"
  else if ¬ (bitmask_cw_pattern.contains r.previous_position_bitmask) then
    .error "ValueError: substring not found"
  else
    let previous_bitmask_index : Int := bitmask_cw_pattern.indexOf r.previous_position_bitmask
    if r.change_occurred == 0 then .ok ""
    else
      let cw_step := bitmask_cw_pattern.getD
        ((previous_bitmask_index + 1) % (bitmask_cw_pattern.length : Int)).toNat ""
      let ccw_step := bitmask_cw_pattern.getD
        ((previous_bitmask_index - 1) % (bitmask_cw_pattern.length : Int)).toNat ""
      if r.current_position_bitmask == cw_step then .ok "CW"
      else if r.current_position_bitmask == ccw_step then .ok "CCW"
      else .error "encountered an illegal change in position"

/-- The `df.apply` loop of `detect_direction_of_motion`: the string state is
the function attribute `current_direction`; every branch of `check_direction`
writes it before it could be read, so the row result is pure and the incoming
state only survives over an empty frame. -/
def detect_direction_fold (d : String) : List Samp → Except String (List Samp × String)
  | [] => .ok ([], d)
  | r :: rs =>
    match check_direction r with
    | .error e => .error e
    | .ok dir =>
      match detect_direction_fold dir rs with
      | .error e => .error e
      | .ok (rest, dF) => .ok ({ r with direction := dir } :: rest, dF)

/-- `detect_direction_of_motion` (source lines 259-304): set the
`change_occurred` column, then classify each row's direction.  The incoming
attribute value `d` is overwritten with `""` at entry (source line 262). -/
def detect_direction_of_motion (d : String) (xs : List Samp) :
    Except String (List Samp × String) :=
  detect_direction_fold "" (xs.map set_change_occurred)

/-- The integrator state: attributes `last_direction` and `current_angle` of
`detect_change_in_angular_position`. -/
structure AngleAttrs where
  last_direction : Option String
  current_angle : ℚ
deriving Repr, DecidableEq

/-- `track_angular_change` (source lines 320-339): unchanged rows pass; a
`"CW"`/`"CCW"` row steps the angle and records the direction; otherwise the
last recorded direction keeps stepping, and with no last direction the source
only prints a diagnostic and leaves the state alone. -/
def track_angular_change (step_deg : ℚ) (st : AngleAttrs) (r : Samp) : AngleAttrs :=
  if r.change_occurred == 0 then st
  else if r.direction == "CW" then ⟨some "CW", st.current_angle + step_deg⟩
  else if r.direction == "CCW" then ⟨some "CCW", st.current_angle - step_deg⟩
  else if st.last_direction == some "CW" then ⟨st.last_direction, st.current_angle + step_deg⟩
  else if st.last_direction == some "CCW" then ⟨st.last_direction, st.current_angle - step_deg⟩
  else st

/-- The `df.apply` loop of `detect_change_in_angular_position`: each row
records the angle after its own update. -/
def detect_change_fold (step_deg : ℚ) : AngleAttrs → List Samp → List Samp × AngleAttrs
  | st, [] => ([], st)
  | st, r :: rs =>
    let st' := track_angular_change step_deg st r
    let res := detect_change_fold step_deg st' rs
    ({ r with angle_deg := st'.current_angle } :: res.1, res.2)

/-- `detect_change_in_angular_position` (source lines 307-349): the attributes
are reset to `(None, 0.0)` at entry (lines 316-317) — so the incoming `attrs`
is dead — and reset again at exit (lines 346-347), which is the state the call
leaves behind. -/
def detect_change_in_angular_position (step_deg : ℚ) (attrs : AngleAttrs)
    (xs : List Samp) : List Samp × AngleAttrs :=
  ((detect_change_fold step_deg ⟨none, 0⟩ xs).1, ⟨none, 0⟩)

/-- `trim_redundant_data_points` (source lines 386-390):
`df = df[df.change_occurred == 0]`, i.e. keep exactly the rows whose
`change_occurred` is 0. -/
def trim_redundant_data_points (xs : List Samp) : List Samp :=
  xs.filter fun r => r.change_occurred == 0

/-- `track_angular_velocity` (source lines 363-373): delta angle over delta
time, 0 when the time delta is exactly 0. -/
def track_angular_velocity (cur : Samp) (prev_angle prev_t : ℚ) : ℚ :=
  let delta_theta := cur.angle_deg - prev_angle
  let delta_t := cur.timestamp_normalized_s - prev_t
  if delta_t ≠ 0 then delta_theta / delta_t else 0

/-- `detect_angular_velocity` (source lines 352-383): shift `angle_deg` and
`timestamp_normalized_s` with the first row as fill value and apply
`track_angular_velocity` row-wise into `velocity_deg_per_s`. -/
def velocity_row (prev cur : Samp) : Samp :=
  { cur with velocity_deg_per_s :=
      track_angular_velocity cur prev.angle_deg prev.timestamp_normalized_s }

def detect_angular_velocity : List Samp → List Samp
  | [] => []
  | x0 :: rest => List.zipWith velocity_row (x0 :: x0 :: rest) (x0 :: rest)

/-- Stages 3-5 of `main` on an already origin-scanned frame: normalize,
bitmask, direction, angle (source lines 456-462). -/
def annotate_after_origin (step_deg : ℚ) (g : PersistentState) (xs : List Samp) :
    Except String (List Samp × PersistentState) :=
  let ys := normalize_timestamps xs
  let ys := generate_encoder_position_bitmask ys
  match detect_direction_of_motion g.current_direction ys with
  | .error e => .error e
  | .ok (ys, dF) =>
    let (ys, aF) := detect_change_in_angular_position step_deg
      ⟨g.last_direction, g.current_angle⟩ ys
    .ok (ys, ⟨dF, aF.last_direction, aF.current_angle⟩)

/-- The pipeline of `main` without the origin scan: used to state that the
origin scan contributes nothing downstream. -/
def run_rest (step_deg : ℚ) (g : PersistentState) (xs : List Samp) :
    Except String (List Samp × PersistentState) :=
  match annotate_after_origin step_deg g xs with
  | .error e => .error e
  | .ok (ys, gF) =>
    .ok (detect_angular_velocity (trim_redundant_data_points ys), gF)

/-- The fully annotated (untrimmed) frame: stages of `main` up to and
including `detect_change_in_angular_position` (source lines 454-462). -/
def annotate_capture (step_deg : ℚ) (g : PersistentState) (xs : List Samp) :
    Except String (List Samp × PersistentState) :=
  annotate_after_origin step_deg g (detect_initial_stable_angular_position xs).1

/-- The per-capture pipeline of `main` (source lines 454-466): origin scan,
normalize, bitmask, direction, angle, trim, velocity. -/
def run_pipeline (step_deg : ℚ) (g : PersistentState) (xs : List Samp) :
    Except String (List Samp × PersistentState) :=
  run_rest step_deg g (detect_initial_stable_angular_position xs).1

/-- The initial persistent state of a fresh process: the attribute values the
module starts with. -/
def g0 : PersistentState := {}

/-- An annotated row with no code change, as the trimmer receives it. -/
def c1_row0 : Samp := { timestamp := 0, change_occurred := 0 }

/-- An annotated row with a code change, as the trimmer receives it. -/
def c1_row1 : Samp := { timestamp := 1, change_occurred := 1 }

/-- The spec's concrete scenario: channels
`(0,0),(0,0),(0,1),(1,1),(1,0),(0,0)` at timestamps `0..5`. -/
def scenario_input : List Samp :=
  [mkRaw 0 false false, mkRaw 1 false false, mkRaw 2 false true,
   mkRaw 3 true true, mkRaw 4 true false, mkRaw 5 false false]

/-- A one-row capture with all-zero readings, used to instantiate theorems
with hypotheses at a concrete input. -/
def one_row_capture : List Samp := [mkRaw 0 false false]

/-- The fully annotated row `run_pipeline` produces from `one_row_capture`. -/
def one_row_out : Samp :=
  { timestamp := 0, chanA := false, chanB := false, timestamp_normalized_s := 0,
    matches_initial_position := 1, current_position_bitmask := "00",
    previous_position_bitmask := "00", change_occurred := 0, direction := "",
    angle_deg := 0, velocity_deg_per_s := 0 }

/-- A persistent state left dirty by a hypothetical earlier capture. -/
def dirty_state : PersistentState :=
  { current_direction := "CCW", last_direction := some "CW", current_angle := 123 }

/-- Channels `(0,0),(0,1),(0,1)`: one clockwise step followed by a sample
with no code change while `last_direction = CW`. -/
def c2_input : List Samp :=
  [mkRaw 0 false false, mkRaw 0 false true, mkRaw 0 false true]

/-- A row as the direction classifier sees it: the current and previous
position bitmasks and the change flag (the only fields it reads). -/
def classifier_row (cur prev : String) (ch : Nat) : Samp :=
  { current_position_bitmask := cur, previous_position_bitmask := prev,
    change_occurred := ch }

/-- Two raw rows used to instantiate the bitmask-generator law. -/
def c6_rows : List Samp := [mkRaw 0 false true, mkRaw 1 true true]

/-- The guard of the integrator's fallback branch (source lines 330-337): a
changed row whose direction is neither `"CW"` nor `"CCW"`.  Only such a row
can reach the keep-stepping-by-last-direction logic or the undefined-direction
diagnostic. -/
def integrator_fallback_guard (r : Samp) : Prop :=
  r.change_occurred ≠ 0 ∧ r.direction ≠ "CW" ∧ r.direction ≠ "CCW"

/-- Rows (bitmask columns already filled) on which the classifier succeeds:
an unchanged row then one clockwise step. -/
def c10_rows : List Samp := [classifier_row "00" "00" 0, classifier_row "01" "00" 0]

/-- The classifier's output rows on `c10_rows`. -/
def c10_out : List Samp :=
  [classifier_row "00" "00" 0,
   { classifier_row "01" "00" 1 with direction := "CW" }]

/-- Forget the column the Stable-Origin Detector writes: rows equal after
`strip` agree on every other column. -/
def strip (r : Samp) : Samp := { r with matches_initial_position := 0 }

/-- Apply `strip` to the row sequence of a pipeline result, leaving errors
and the persistent state untouched. -/
def strip_run (e : Except String (List Samp × PersistentState)) :
    Except String (List Samp × PersistentState) :=
  match e with
  | .error msg => .error msg
  | .ok (l, gF) => .ok (l.map strip, gF)

/-- Relation used while propagating `strip`-equality through the direction
fold: same error, or row sequences equal modulo the origin column and the
same final attribute value. -/
def dir_fold_rel (e1 e2 : Except String (List Samp × String)) : Prop :=
  match e1, e2 with
  | .error m1, .error m2 => m1 = m2
  | .ok (l1, d1), .ok (l2, d2) => l1.map strip = l2.map strip ∧ d1 = d2
  | _, _ => False

end Enc

deriving instance DecidableEq for Except

namespace Enc

/-- Case table for `encode_bitmask`, so that concrete runs need not unfold the
binary-string construction. -/
theorem encode_tbl : ∀ a b : Bool, encode_bitmask a b =
    if a then (if b then "11" else "10") else (if b then "01" else "00") := by
  decide

/-- C1: the claim says the trimmer returns exactly the `changed = true`
samples; the code keeps exactly the `change_occurred == 0` rows, so on a
frame with one unchanged and one changed row it returns the unchanged row and
differs from the changed-row filter (the function's own docstring says it
removes the no-change samples). -/
theorem c1_trimmer_keeps_unchanged_rows :
    trim_redundant_data_points [c1_row0, c1_row1] = [c1_row0] ∧
    c1_row0.change_occurred = 0 ∧ c1_row1.change_occurred = 1 ∧
    trim_redundant_data_points [c1_row0, c1_row1] ≠
      List.filter (fun r => r.change_occurred == 1) [c1_row0, c1_row1] := by
  refine ⟨by decide, by decide, by decide, by decide⟩

/-- C4: on the concrete scenario (resolution 4, step 90), the annotated frame
has the claimed codes, directions (`""` is the source's `UNCHANGED` marker)
and angles; but the pipeline's final trimmed output is the two rows with no
code change — original indices 0 and 1 (timestamps 0 and 1) with velocities
0 and 0 — not the four changed rows 2..5 with velocities 0,90,90,90 the claim
states. -/
theorem c4_scenario_pipeline :
    (annotate_capture (position_step_size_deg 4) g0 scenario_input).map
      (fun p => p.1.map fun r => (r.current_position_bitmask, r.direction, r.angle_deg)) =
      .ok [("00", "", 0), ("00", "", 0), ("01", "CW", 90),
           ("11", "CW", 180), ("10", "CW", 270), ("00", "CW", 360)] ∧
    (run_pipeline (position_step_size_deg 4) g0 scenario_input).map
      (fun p => p.1.map fun r => (r.timestamp, r.change_occurred, r.velocity_deg_per_s)) =
      .ok [(0, 0, 0), (1, 0, 0)] := by
  constructor
  · simp +decide only [annotate_capture, annotate_after_origin, normalize_timestamps,
      detect_initial_stable_angular_position, generate_encoder_position_bitmask,
      bitmask_row, detect_direction_of_motion, detect_direction_fold, set_change_occurred,
      check_direction, encode_tbl, bitmask_cw_pattern,
      detect_change_in_angular_position, detect_change_fold, track_angular_change,
      scenario_input, mkRaw, g0, position_step_size_deg,
      List.map, List.zipWith, Except.map, List.contains, List.indexOf, List.findIdx,
      List.findIdx.go, List.elem, idxmax_bool_total, idxmax_bool, List.any, reduceIte]
    norm_num
  · simp +decide only [run_pipeline, run_rest, annotate_capture, annotate_after_origin,
      normalize_timestamps, detect_initial_stable_angular_position,
      generate_encoder_position_bitmask, bitmask_row, detect_direction_of_motion,
      detect_direction_fold, set_change_occurred, check_direction, encode_tbl,
      bitmask_cw_pattern, detect_change_in_angular_position, detect_change_fold,
      track_angular_change, trim_redundant_data_points, detect_angular_velocity,
      velocity_row, track_angular_velocity, List.filter, scenario_input, mkRaw, g0,
      position_step_size_deg, List.map, List.zipWith, Except.map, List.contains,
      List.indexOf, List.findIdx, List.findIdx.go, List.elem, idxmax_bool_total,
      idxmax_bool, List.any, reduceIte]
    norm_num

/-- C5: the pipeline resets its persistent accumulator state at entry
(source lines 262, 316-317) and at exit (lines 346-347), so re-running it on
the same input, starting from whatever state the first run left behind,
yields the identical result. -/
theorem c5_rerun_bit_identical (step_deg : ℚ) (g g1 : PersistentState)
    (xs : List Samp) (out : List Samp)
    (h : run_pipeline step_deg g xs = .ok (out, g1)) :
    run_pipeline step_deg g1 xs = .ok (out, g1) :=
  h

/-- C5 witness: a first run from a dirty state on the one-row capture, then a
second run from the state it returns, bit-identical. -/
theorem c5_witness :
    run_pipeline 90 dirty_state one_row_capture =
      .ok ([one_row_out], { current_direction := "" }) ∧
    run_pipeline 90 { current_direction := "" } one_row_capture =
      .ok ([one_row_out], { current_direction := "" }) := by
  have h : run_pipeline 90 dirty_state one_row_capture =
      .ok ([one_row_out], { current_direction := "" }) := by
    simp +decide only [run_pipeline, run_rest, annotate_after_origin,
      normalize_timestamps, detect_initial_stable_angular_position,
      generate_encoder_position_bitmask, bitmask_row, detect_direction_of_motion,
      detect_direction_fold, set_change_occurred, check_direction, encode_tbl,
      bitmask_cw_pattern, detect_change_in_angular_position, detect_change_fold,
      track_angular_change, trim_redundant_data_points, detect_angular_velocity,
      velocity_row, track_angular_velocity, List.filter, one_row_capture, one_row_out, mkRaw,
      dirty_state, List.map, List.zipWith, Except.map, List.contains,
      List.indexOf, List.findIdx, List.findIdx.go, List.elem, idxmax_bool_total,
      idxmax_bool, List.any, reduceIte]
    norm_num
  exact ⟨h, c5_rerun_bit_identical 90 dirty_state _ one_row_capture [one_row_out] h⟩

/-- C2 counterexample: on channels `(0,0),(0,1),(0,1)` with step 90, the
third sample has no code change (`UNCHANGED`) while the previously observed
direction is `CW`, yet its angle stays 90 — the integrator does not add a
step (which would give 180), refuting the claim at this input. -/
theorem c2_counterexample :
    (annotate_capture 90 g0 c2_input).map
      (fun p => p.1.map fun r => (r.change_occurred, r.direction, r.angle_deg)) =
      .ok [(0, "", 0), (1, "CW", 90), (0, "", 90)] ∧
    (90 : ℚ) ≠ 90 + 90 := by
  constructor
  · simp +decide only [annotate_capture, annotate_after_origin, normalize_timestamps,
      detect_initial_stable_angular_position, generate_encoder_position_bitmask,
      bitmask_row, detect_direction_of_motion, detect_direction_fold, set_change_occurred,
      check_direction, encode_tbl, bitmask_cw_pattern,
      detect_change_in_angular_position, detect_change_fold, track_angular_change,
      c2_input, mkRaw, g0, List.map, List.zipWith, Except.map, List.contains,
      List.indexOf, List.findIdx, List.findIdx.go, List.elem, idxmax_bool_total,
      idxmax_bool, List.any, reduceIte]
    norm_num
  · norm_num

/-- C2 amended: for every sample with no code change the integrator leaves
its running state (angle and last direction) untouched and records the
incoming angle as the sample's `angle_deg`, regardless of `last_direction`;
the branch that keeps stepping by the last observed direction belongs to the
changed-sample case with a direction other than `"CW"`/`"CCW"`, and when the
last direction is still undefined there the source only prints a diagnostic
and treats the sample as zero motion. -/
theorem c2_integrator_holds_on_unchanged :
    (∀ (step : ℚ) (st : AngleAttrs) (r : Samp),
      r.change_occurred = 0 → track_angular_change step st r = st) ∧
    (∀ (step : ℚ) (st : AngleAttrs) (r : Samp) (rs : List Samp),
      r.change_occurred = 0 →
      ((detect_change_fold step st (r :: rs)).1.headD dummySamp).angle_deg =
        st.current_angle) ∧
    (∀ (step : ℚ) (st : AngleAttrs) (r : Samp),
      r.change_occurred ≠ 0 → r.direction ≠ "CW" → r.direction ≠ "CCW" →
      st.last_direction = none → track_angular_change step st r = st) := by
  refine ⟨?_, ?_, ?_⟩
  · intro step st r h
    simp [track_angular_change, h]
  · intro step st r rs h
    simp [detect_change_fold, track_angular_change, h]
  · intro step st r h h2 h3 h4
    simp [track_angular_change, h, h2, h3, h4]

/-- C2 amended witness: an unchanged row with `last_direction = CW` and angle
45 leaves the integrator state exactly as it was. -/
theorem c2_integrator_holds_witness :
    track_angular_change 90 ⟨some "CW", 45⟩ dummySamp = ⟨some "CW", 45⟩ :=
  c2_integrator_holds_on_unchanged.1 90 ⟨some "CW", 45⟩ dummySamp rfl

/-- C3: for a `changed` sample whose codes sit at cycle indices `c` and `p`
of `["00","01","11","10"]`, the classifier returns `"CW"` exactly when
`c = (p+1) mod 4`, `"CCW"` exactly when `c = (p-1) mod 4`, and otherwise the
illegal-transition error; in particular the direct `"00" → "11"` transition
errors. -/
theorem c3_direction_classifier :
    (∀ (r : Samp) (ci pi2 : Fin 4),
      r.change_occurred = 1 →
      r.current_position_bitmask = bitmask_cw_pattern.getD ci "" →
      r.previous_position_bitmask = bitmask_cw_pattern.getD pi2 "" →
      ((check_direction r = .ok "CW" ↔ ((ci : Nat) : Int) = (((pi2 : Nat) : Int) + 1) % 4) ∧
       (check_direction r = .ok "CCW" ↔ ((ci : Nat) : Int) = (((pi2 : Nat) : Int) - 1) % 4) ∧
       (check_direction r = .error "encountered an illegal change in position" ↔
         (((ci : Nat) : Int) ≠ (((pi2 : Nat) : Int) + 1) % 4 ∧
          ((ci : Nat) : Int) ≠ (((pi2 : Nat) : Int) - 1) % 4)))) ∧
    check_direction (classifier_row "11" "00" 1) =
      .error "encountered an illegal change in position" := by
  constructor
  · intro r ci pi2 h1 h2 h3
    have hr : check_direction r = check_direction
        (classifier_row r.current_position_bitmask r.previous_position_bitmask
          r.change_occurred) := rfl
    rw [hr, h1, h2, h3]
    clear hr h1 h2 h3
    clear r
    revert ci pi2
    decide
  · decide

/-- C3 witness: the `"00" → "01"` changed transition, at cycle indices
`p = 0`, `c = 1`, instantiating the classifier law. -/
theorem c3_witness :
    (check_direction (classifier_row "01" "00" 1) = .ok "CW" ↔
      ((1 : Int) = ((0 : Int) + 1) % 4)) ∧
    (check_direction (classifier_row "01" "00" 1) = .ok "CCW" ↔
      ((1 : Int) = ((0 : Int) - 1) % 4)) ∧
    (check_direction (classifier_row "01" "00" 1) =
        .error "encountered an illegal change in position" ↔
      ((1 : Int) ≠ ((0 : Int) + 1) % 4 ∧ (1 : Int) ≠ ((0 : Int) - 1) % 4)) :=
  c3_direction_classifier.1 (classifier_row "01" "00" 1) 1 0 rfl rfl rfl


/-- Element access of the row-shifted `zipWith` the bitmask and velocity
stages use: in range, entry `i` combines row `i` of the fill-extended list
with row `i` of the frame. -/
theorem zipWith_shift_getD (f : Samp → Samp → Samp) :
    ∀ (xs : List Samp) (x0 : Samp) (i : Nat), i < xs.length →
      (List.zipWith f (x0 :: xs) xs).getD i dummySamp =
        f ((x0 :: xs).getD i dummySamp) (xs.getD i dummySamp) := by
  intro xs
  induction xs with
  | nil => intro x0 i h; simp at h
  | cons a as ih =>
    intro x0 i h
    cases i with
    | zero => rfl
    | succ n =>
      have hn : n < as.length := by
        simpa using Nat.lt_of_succ_lt_succ (by simpa using h)
      have step : (List.zipWith f (x0 :: a :: as) (a :: as)).getD (n + 1) dummySamp =
          (List.zipWith f (a :: as) as).getD n dummySamp := rfl
      rw [step, ih a n hn]
      rfl

/-- The fill-extended list `x0 :: x0 :: rest` indexes like `x0 :: rest`
shifted down by one (the first row's previous row is itself). -/
theorem shift_head_getD (x0 : Samp) (rest : List Samp) (i : Nat) :
    (x0 :: x0 :: rest).getD i dummySamp = (x0 :: rest).getD (i - 1) dummySamp := by
  cases i with
  | zero => rfl
  | succ n => rfl

/-- C6: the bitmask generator preserves length, fills `current_position_bitmask`
with the 2-bit zero-padded encoding of `(a <<< 1) ||| b` (the stated 4-value
table), and fills `previous_position_bitmask` with the previous row's current
code, the first row using its own (with `0 - 1 = 0` on `Nat`, the `i - 1`
index covers both cases). -/
theorem c6_bitmask_generator (xs : List Samp) (i : Nat) (hi : i < xs.length) :
    (encode_bitmask false false = "00" ∧ encode_bitmask false true = "01" ∧
     encode_bitmask true false = "10" ∧ encode_bitmask true true = "11") ∧
    (generate_encoder_position_bitmask xs).length = xs.length ∧
    ((generate_encoder_position_bitmask xs).getD i dummySamp).current_position_bitmask =
      encode_bitmask (xs.getD i dummySamp).chanA (xs.getD i dummySamp).chanB ∧
    ((generate_encoder_position_bitmask xs).getD i dummySamp).previous_position_bitmask =
      ((generate_encoder_position_bitmask xs).getD (i - 1) dummySamp).current_position_bitmask := by
  cases xs with
  | nil => exact absurd hi (by simp)
  | cons x0 rest =>
    refine ⟨⟨by decide, by decide, by decide, by decide⟩, ?_, ?_, ?_⟩
    · simp [generate_encoder_position_bitmask]
    · show ((List.zipWith bitmask_row (x0 :: x0 :: rest) (x0 :: rest)).getD i
        dummySamp).current_position_bitmask = _
      rw [zipWith_shift_getD bitmask_row (x0 :: rest) x0 i hi]
      rfl
    · show ((List.zipWith bitmask_row (x0 :: x0 :: rest) (x0 :: rest)).getD i
        dummySamp).previous_position_bitmask = _
      rw [zipWith_shift_getD bitmask_row (x0 :: rest) x0 i hi]
      have hi1 : i - 1 < (x0 :: rest).length := Nat.lt_of_le_of_lt (Nat.sub_le i 1) hi
      calc (bitmask_row ((x0 :: x0 :: rest).getD i dummySamp)
              ((x0 :: rest).getD i dummySamp)).previous_position_bitmask
          = encode_bitmask ((x0 :: x0 :: rest).getD i dummySamp).chanA
              ((x0 :: x0 :: rest).getD i dummySamp).chanB := rfl
        _ = encode_bitmask ((x0 :: rest).getD (i - 1) dummySamp).chanA
              ((x0 :: rest).getD (i - 1) dummySamp).chanB := by
              rw [shift_head_getD]
        _ = _ := by
              rw [show (generate_encoder_position_bitmask (x0 :: rest)).getD (i - 1) dummySamp
                    = bitmask_row ((x0 :: x0 :: rest).getD (i - 1) dummySamp)
                        ((x0 :: rest).getD (i - 1) dummySamp) from
                  zipWith_shift_getD bitmask_row (x0 :: rest) x0 (i - 1) hi1]
              rfl

/-- C6 witness: on two rows `(0,1)` then `(1,1)`, row 1's previous code
equals row 0's current code, and row 1's current code is `encode 1 1`. -/
theorem c6_witness :
    ((generate_encoder_position_bitmask c6_rows).getD 1 dummySamp).previous_position_bitmask =
      ((generate_encoder_position_bitmask c6_rows).getD 0 dummySamp).current_position_bitmask :=
  (c6_bitmask_generator c6_rows 1 (by decide)).2.2.2

/-- C7: on any (trimmed) frame, each sample past the first gets velocity
`(angle[i] - angle[i-1]) / (t[i] - t[i-1])`, except 0 when the time delta is
exactly 0; the first sample's velocity is 0 (its shifted predecessor is
itself, so the zero-delta guard fires). -/
theorem c7_velocity_estimator (ys : List Samp) (hne : ys ≠ []) :
    (∀ i, 0 < i → i < ys.length →
      ((detect_angular_velocity ys).getD i dummySamp).velocity_deg_per_s =
        (if (ys.getD i dummySamp).timestamp_normalized_s -
            (ys.getD (i - 1) dummySamp).timestamp_normalized_s ≠ 0 then
          ((ys.getD i dummySamp).angle_deg - (ys.getD (i - 1) dummySamp).angle_deg) /
            ((ys.getD i dummySamp).timestamp_normalized_s -
             (ys.getD (i - 1) dummySamp).timestamp_normalized_s)
        else 0)) ∧
    ((detect_angular_velocity ys).getD 0 dummySamp).velocity_deg_per_s = 0 := by
  cases ys with
  | nil => exact absurd rfl hne
  | cons y0 rest =>
    constructor
    · intro i _h0 hlt
      show ((List.zipWith velocity_row (y0 :: y0 :: rest) (y0 :: rest)).getD i
        dummySamp).velocity_deg_per_s = _
      rw [zipWith_shift_getD velocity_row (y0 :: rest) y0 i hlt, shift_head_getD]
      rfl
    · show ((List.zipWith velocity_row (y0 :: y0 :: rest) (y0 :: rest)).getD 0
        dummySamp).velocity_deg_per_s = 0
      have h0 : (List.zipWith velocity_row (y0 :: y0 :: rest) (y0 :: rest)).getD 0
          dummySamp = velocity_row y0 y0 := rfl
      rw [h0]
      simp [velocity_row, track_angular_velocity]

/-- C7 witness: on the one-row frame the first sample's velocity is 0. -/
theorem c7_witness :
    ((detect_angular_velocity [dummySamp]).getD 0 dummySamp).velocity_deg_per_s = 0 :=
  (c7_velocity_estimator [dummySamp] (by decide)).2

/-- Any bitmask produced from two channel bits is a member of the 4-entry
clockwise pattern. -/
theorem encode_mem_pattern : ∀ a b : Bool,
    bitmask_cw_pattern.contains (encode_bitmask a b) = true := by
  decide

/-- A row whose current and previous bitmasks lie in the pattern and whose
change flag is 0 is classified `""` (the `UNCHANGED` marker). -/
theorem check_direction_unchanged (w : Samp)
    (hc : bitmask_cw_pattern.contains w.current_position_bitmask = true)
    (hp : bitmask_cw_pattern.contains w.previous_position_bitmask = true)
    (hch : w.change_occurred = 0) : check_direction w = .ok "" := by
  have hc' : w.current_position_bitmask ∈ bitmask_cw_pattern := by simpa using hc
  have hp' : w.previous_position_bitmask ∈ bitmask_cw_pattern := by simpa using hp
  simp [check_direction, hch, hc', hp']

/-- Inverting one step of the direction fold when the head row is classified
`""`: the output starts with the head row marked `""` and the tail comes from
the fold on the rest. -/
theorem detect_direction_fold_cons_unchanged (r : Samp) (rs ys : List Samp)
    (d dF : String) (hr : check_direction r = .ok "")
    (h : detect_direction_fold d (r :: rs) = .ok (ys, dF)) :
    ∃ tl, ys = { r with direction := "" } :: tl ∧
      detect_direction_fold "" rs = .ok (tl, dF) := by
  simp only [detect_direction_fold, hr] at h
  cases hrec : detect_direction_fold "" rs with
  | error e => rw [hrec] at h; exact Except.noConfusion h
  | ok p =>
    rw [hrec] at h
    injection h with h'
    injection h' with h1 h2
    have h3 : (Except.ok p : Except String (List Samp × String)) = .ok (p.1, dF) := by
      rw [← h2]
    exact ⟨p.1, h1.symm, h3⟩

/-- The integrator on a frame whose head row has no code change records angle
0 for it (the state starts at angle 0 and is held across the head row). -/
theorem detect_change_head_unchanged (step : ℚ) (a : AngleAttrs) (v : Samp)
    (vs : List Samp) (hv : v.change_occurred = 0) :
    (detect_change_in_angular_position step a (v :: vs)).1 =
      { v with angle_deg := 0 } ::
        (detect_change_fold step ⟨none, 0⟩ vs).1 := by
  simp [detect_change_in_angular_position, detect_change_fold,
    track_angular_change, hv]

/-- The trimmer keeps a head row with no code change. -/
theorem trim_cons_unchanged (v : Samp) (vs : List Samp)
    (hv : v.change_occurred = 0) :
    trim_redundant_data_points (v :: vs) = v :: trim_redundant_data_points vs := by
  simp [trim_redundant_data_points, hv]

/-- Head-shape inversion for the annotated frame: on a nonempty input a
successful annotation starts with a row whose normalized timestamp is 0,
whose angle is 0 and whose change flag is 0. -/
theorem annotate_head_zero (step : ℚ) (g : PersistentState) (a : Samp)
    (l ys : List Samp) (gF : PersistentState)
    (h : annotate_after_origin step g (a :: l) = .ok (ys, gF)) :
    ∃ u tl, ys = u :: tl ∧ u.timestamp_normalized_s = 0 ∧ u.angle_deg = 0 ∧
      u.change_occurred = 0 := by
  have hn : normalize_timestamps (a :: l) =
      { a with timestamp_normalized_s := 0 } ::
        l.map (fun r => { r with timestamp_normalized_s := r.timestamp - a.timestamp }) := by
    simp [normalize_timestamps]
  have hgen : ∀ (x0 : Samp) (rest : List Samp),
      generate_encoder_position_bitmask (x0 :: rest) =
        bitmask_row x0 x0 :: List.zipWith bitmask_row (x0 :: rest) rest := by
    intro x0 rest
    simp [generate_encoder_position_bitmask]
  set n0 : Samp := { a with timestamp_normalized_s := 0 } with hn0
  set ltl : List Samp :=
    l.map (fun r => { r with timestamp_normalized_s := r.timestamp - a.timestamp }) with hltl
  set w0 : Samp := bitmask_row n0 n0 with hw0
  set ws : List Samp := List.zipWith bitmask_row (n0 :: ltl) ltl with hws
  have hsc : set_change_occurred w0 = { w0 with change_occurred := 0 } := by
    simp [set_change_occurred, hw0, bitmask_row]
  have hchk : check_direction (set_change_occurred w0) = .ok "" := by
    refine check_direction_unchanged _ ?_ ?_ ?_
    · rw [hsc]; exact encode_mem_pattern n0.chanA n0.chanB
    · rw [hsc]; exact encode_mem_pattern n0.chanA n0.chanB
    · rw [hsc]
  have hdirm : detect_direction_of_motion g.current_direction (w0 :: ws) =
      detect_direction_fold ""
        (set_change_occurred w0 :: ws.map set_change_occurred) := by
    simp [detect_direction_of_motion]
  cases hdir : detect_direction_fold ""
      (set_change_occurred w0 :: ws.map set_change_occurred) with
  | error e =>
    have hres : annotate_after_origin step g (a :: l) = .error e := by
      simp only [annotate_after_origin]
      rw [hn, hgen n0 ltl, ← hw0, ← hws, hdirm, hdir]
    rw [hres] at h
    exact Except.noConfusion h
  | ok p =>
    obtain ⟨ys2, dF2⟩ := p
    have hres : annotate_after_origin step g (a :: l) =
        .ok ((detect_change_in_angular_position step
          ⟨g.last_direction, g.current_angle⟩ ys2).1, ⟨dF2, none, 0⟩) := by
      simp only [annotate_after_origin]
      rw [hn, hgen n0 ltl, ← hw0, ← hws, hdirm, hdir]
      rfl
    rw [hres] at h
    injection h with h'
    injection h' with h1 _h2
    obtain ⟨tl, hys2, _⟩ := detect_direction_fold_cons_unchanged
      (set_change_occurred w0) (ws.map set_change_occurred) ys2 "" dF2 hchk hdir
    rw [hys2, detect_change_head_unchanged step
      ⟨g.last_direction, g.current_angle⟩
      { set_change_occurred w0 with direction := "" } tl (by rw [hsc])] at h1
    refine ⟨{ { set_change_occurred w0 with direction := "" } with angle_deg := 0 },
      (detect_change_fold step ⟨none, 0⟩ tl).1, h1.symm, ?_, ?_, ?_⟩
    · rw [hsc, hw0, hn0]
      rfl
    · rfl
    · rw [hsc]

/-- C8: on every nonempty capture the pipeline's successful output starts
with the original first sample, carrying normalized timestamp 0 and
angle_deg 0. -/
theorem c8_first_sample_origin (step : ℚ) (g : PersistentState)
    (xs out : List Samp) (gF : PersistentState) (hne : xs ≠ [])
    (h : run_pipeline step g xs = .ok (out, gF)) :
    out ≠ [] ∧ (out.headD dummySamp).timestamp_normalized_s = 0 ∧
      (out.headD dummySamp).angle_deg = 0 := by
  cases xs with
  | nil => exact absurd rfl hne
  | cons x0 rest =>
    unfold run_pipeline at h
    have hD : (detect_initial_stable_angular_position (x0 :: rest)).1 =
        ({ x0 with matches_initial_position := 1 }) ::
          rest.map (fun r => { r with matches_initial_position :=
            if r.chanA == x0.chanA && r.chanB == x0.chanB then 1 else 0 }) := by
      simp [detect_initial_stable_angular_position]
    rw [hD] at h
    unfold run_rest at h
    cases hA : annotate_after_origin step g
        (({ x0 with matches_initial_position := 1 }) ::
          rest.map (fun r => { r with matches_initial_position :=
            if r.chanA == x0.chanA && r.chanB == x0.chanB then 1 else 0 })) with
    | error e =>
      rw [hA] at h
      exact Except.noConfusion h
    | ok p =>
      rw [hA] at h
      obtain ⟨u, tl, hys, ht, hang, hch⟩ :=
        annotate_head_zero step g _ _ p.1 p.2 (by rw [hA])
      injection h with h'
      injection h' with h1 _h2
      rw [← h1, hys, trim_cons_unchanged u tl hch]
      have hvel : detect_angular_velocity (u :: trim_redundant_data_points tl) =
          velocity_row u u ::
            List.zipWith velocity_row (u :: trim_redundant_data_points tl)
              (trim_redundant_data_points tl) := by
        simp [detect_angular_velocity]
      rw [hvel]
      exact ⟨by simp, ht, hang⟩

/-- C8 witness: the one-row capture, run from the fresh state. -/
theorem c8_witness :
    ([one_row_out] : List Samp) ≠ [] ∧
    (([one_row_out] : List Samp).headD dummySamp).timestamp_normalized_s = 0 ∧
    (([one_row_out] : List Samp).headD dummySamp).angle_deg = 0 := by
  have h : run_pipeline 90 g0 one_row_capture =
      .ok ([one_row_out], { current_direction := "" }) := by
    simp +decide only [run_pipeline, run_rest, annotate_after_origin,
      normalize_timestamps, detect_initial_stable_angular_position,
      generate_encoder_position_bitmask, bitmask_row, detect_direction_of_motion,
      detect_direction_fold, set_change_occurred, check_direction, encode_tbl,
      bitmask_cw_pattern, detect_change_in_angular_position, detect_change_fold,
      track_angular_change, trim_redundant_data_points, detect_angular_velocity,
      velocity_row, track_angular_velocity, List.filter, one_row_capture,
      one_row_out, mkRaw, g0, List.map, List.zipWith, Except.map, List.contains,
      List.indexOf, List.findIdx, List.findIdx.go, List.elem, idxmax_bool_total,
      idxmax_bool, List.any, reduceIte]
    norm_num
  exact c8_first_sample_origin 90 g0 one_row_capture [one_row_out]
    { current_direction := "" } (by decide) h


/-- A changed row that the classifier accepts is classified `"CW"` or
`"CCW"`: the `""` result only arises from the unchanged branch. -/
theorem check_direction_ok_changed (r : Samp) (dir : String)
    (h : check_direction r = .ok dir) (hc : r.change_occurred ≠ 0) :
    dir = "CW" ∨ dir = "CCW" := by
  simp only [check_direction] at h
  split at h
  · exact Except.noConfusion h
  · split at h
    · exact Except.noConfusion h
    · split at h
      · next hcond => exact absurd (by simpa using hcond) hc
      · split at h
        · exact Or.inl (Except.ok.inj h).symm
        · split at h
          · exact Or.inr (Except.ok.inj h).symm
          · exact Except.noConfusion h

/-- Every row of a successful direction fold that carries a change is
classified `"CW"` or `"CCW"`. -/
theorem detect_direction_fold_ok_changed (xs : List Samp) :
    ∀ (d : String) (ys : List Samp) (dF : String),
      detect_direction_fold d xs = .ok (ys, dF) →
      ∀ r ∈ ys, r.change_occurred ≠ 0 →
        r.direction = "CW" ∨ r.direction = "CCW" := by
  induction xs with
  | nil =>
    intro d ys dF h r hr
    have : ys = [] := by
      simp only [detect_direction_fold] at h
      exact ((Prod.mk.injEq _ _ _ _).mp (Except.ok.inj h)).1.symm
    rw [this] at hr
    exact absurd hr (List.not_mem_nil r)
  | cons a as ih =>
    intro d ys dF h r hr hchg
    cases hcd : check_direction a with
    | error e =>
      simp only [detect_direction_fold, hcd] at h
      exact Except.noConfusion h
    | ok dir =>
      simp only [detect_direction_fold, hcd] at h
      cases hrec : detect_direction_fold dir as with
      | error e => rw [hrec] at h; exact Except.noConfusion h
      | ok p =>
        rw [hrec] at h
        injection h with h'
        injection h' with h1 h2
        rw [← h1] at hr
        rcases List.mem_cons.mp hr with hhead | htail
        · have hch : a.change_occurred ≠ 0 := by
            rw [hhead] at hchg
            exact hchg
          have hdir := check_direction_ok_changed a dir hcd hch
          rw [hhead]
          exact hdir
        · exact ih dir p.1 p.2
            (show detect_direction_fold dir as = .ok (p.1, p.2) from hrec) r htail hchg

/-- C10: whenever the Direction Classifier completes without an error, every
output row with a code change is directed `"CW"` or `"CCW"`, so the
integrator's fallback branch (re-applying the last observed direction, and
its undefined-direction diagnostic) is unreachable on classified frames, and
the integrator leaves its running state unchanged on every row with no code
change. -/
theorem c10_fallback_unreachable (d : String) (xs ys : List Samp) (dF : String)
    (h : detect_direction_of_motion d xs = .ok (ys, dF)) :
    (∀ r ∈ ys, r.change_occurred ≠ 0 → r.direction = "CW" ∨ r.direction = "CCW") ∧
    (∀ r ∈ ys, ¬ integrator_fallback_guard r) ∧
    (∀ r ∈ ys, ∀ (step : ℚ) (st : AngleAttrs), r.change_occurred = 0 →
      track_angular_change step st r = st) := by
  have hmain := detect_direction_fold_ok_changed (xs.map set_change_occurred) "" ys dF h
  refine ⟨hmain, ?_, ?_⟩
  · intro r hr hguard
    rcases hmain r hr hguard.1 with hcw | hccw
    · exact hguard.2.1 hcw
    · exact hguard.2.2 hccw
  · intro r _hr step st hch
    simp [track_angular_change, hch]

/-- C10 witness: the classifier succeeds on an unchanged row followed by one
clockwise step, and the changed output row is directed `"CW"`. -/
theorem c10_witness :
    ({ classifier_row "01" "00" 1 with direction := "CW" } : Samp).direction = "CW" ∨
    ({ classifier_row "01" "00" 1 with direction := "CW" } : Samp).direction = "CCW" :=
  (c10_fallback_unreachable "" c10_rows c10_out "CW" (by decide)).1
    { classifier_row "01" "00" 1 with direction := "CW" } (by decide) (by decide)


/-- Inversion: a strip-equal counterpart of the empty list is empty. -/
theorem strip_eq_nil {bs : List Samp} (h : ([] : List Samp).map strip = bs.map strip) :
    bs = [] := by
  cases bs with
  | nil => rfl
  | cons b bs' => simp at h

/-- Inversion: a strip-equal counterpart of a cons is a cons of a strip-equal
head and a strip-equal tail. -/
theorem strip_eq_cons {a : Samp} {as bs : List Samp}
    (h : (a :: as).map strip = bs.map strip) :
    ∃ b bs', bs = b :: bs' ∧ strip a = strip b ∧ as.map strip = bs'.map strip := by
  cases bs with
  | nil => simp at h
  | cons b bs' =>
    simp only [List.map_cons, List.cons.injEq] at h
    exact ⟨b, bs', rfl, h.1, h.2⟩

/-- Map congruence along strip-equality: if the two row functions agree
modulo the origin column on strip-equal rows, the mapped sequences stay
strip-equal. -/
theorem map_strip_congr (f g : Samp → Samp)
    (hfg : ∀ r r', strip r = strip r' → strip (f r) = strip (g r')) :
    ∀ (as bs : List Samp), as.map strip = bs.map strip →
      (as.map f).map strip = (bs.map g).map strip := by
  intro as
  induction as with
  | nil =>
    intro bs h
    rw [strip_eq_nil h]
    rfl
  | cons a as ih =>
    intro bs h
    obtain ⟨b, bs', rfl, hab, htl⟩ := strip_eq_cons h
    simp only [List.map_cons, List.cons.injEq]
    exact ⟨hfg a b hab, ih bs' htl⟩

/-- zipWith congruence along strip-equality. -/
theorem zipWith_strip_congr (f : Samp → Samp → Samp)
    (hf : ∀ p p' c c', strip p = strip p' → strip c = strip c' →
      strip (f p c) = strip (f p' c')) :
    ∀ (as bs as' bs' : List Samp),
      as.map strip = as'.map strip → bs.map strip = bs'.map strip →
      (List.zipWith f as bs).map strip = (List.zipWith f as' bs').map strip := by
  intro as
  induction as with
  | nil =>
    intro bs as' bs' h1 _h2
    rw [strip_eq_nil h1]
    rfl
  | cons a as ih =>
    intro bs as' bs' h1 h2
    obtain ⟨a', as'', rfl, haa, has⟩ := strip_eq_cons h1
    cases bs with
    | nil =>
      rw [strip_eq_nil h2]
      rfl
    | cons b bs2 =>
      obtain ⟨b', bs2', rfl, hbb, hbs⟩ := strip_eq_cons h2
      simp only [List.zipWith_cons_cons, List.map_cons, List.cons.injEq]
      exact ⟨hf a a' b b' haa hbb, ih bs2 as'' bs2' has hbs⟩

/-- Strip-equal rows have the same timestamp. -/
theorem strip_timestamp {r r' : Samp} (h : strip r = strip r') :
    r.timestamp = r'.timestamp :=
  by have h2 := congrArg Samp.timestamp h; exact h2

/-- Strip-equal rows have the same channel readings. -/
theorem strip_chanA {r r' : Samp} (h : strip r = strip r') : r.chanA = r'.chanA :=
  by have h2 := congrArg Samp.chanA h; exact h2

theorem strip_chanB {r r' : Samp} (h : strip r = strip r') : r.chanB = r'.chanB :=
  by have h2 := congrArg Samp.chanB h; exact h2

theorem strip_tnorm {r r' : Samp} (h : strip r = strip r') :
    r.timestamp_normalized_s = r'.timestamp_normalized_s :=
  by have h2 := congrArg Samp.timestamp_normalized_s h; exact h2

theorem strip_cur {r r' : Samp} (h : strip r = strip r') :
    r.current_position_bitmask = r'.current_position_bitmask :=
  by have h2 := congrArg Samp.current_position_bitmask h; exact h2

theorem strip_prev {r r' : Samp} (h : strip r = strip r') :
    r.previous_position_bitmask = r'.previous_position_bitmask :=
  by have h2 := congrArg Samp.previous_position_bitmask h; exact h2

theorem strip_chg {r r' : Samp} (h : strip r = strip r') :
    r.change_occurred = r'.change_occurred :=
  by have h2 := congrArg Samp.change_occurred h; exact h2

theorem strip_dir {r r' : Samp} (h : strip r = strip r') :
    r.direction = r'.direction :=
  by have h2 := congrArg Samp.direction h; exact h2

theorem strip_ang {r r' : Samp} (h : strip r = strip r') :
    r.angle_deg = r'.angle_deg :=
  by have h2 := congrArg Samp.angle_deg h; exact h2


/-- The Timestamp Normalizer only reads timestamps, so it preserves
strip-equality. -/
theorem normalize_strip_congr : ∀ (as bs : List Samp),
    as.map strip = bs.map strip →
    (normalize_timestamps as).map strip = (normalize_timestamps bs).map strip := by
  intro as bs h
  cases as with
  | nil =>
    rw [strip_eq_nil h]
  | cons a as' =>
    obtain ⟨b, bs', rfl, hab, _htl⟩ := strip_eq_cons h
    have ht : a.timestamp = b.timestamp := strip_timestamp hab
    exact map_strip_congr
      (fun r => { r with timestamp_normalized_s := r.timestamp - a.timestamp })
      (fun r => { r with timestamp_normalized_s := r.timestamp - b.timestamp })
      (by
        intro r r' hrr
        have h1 : r.timestamp = r'.timestamp := strip_timestamp hrr
        show ({ strip r with timestamp_normalized_s := r.timestamp - a.timestamp } : Samp) =
          { strip r' with timestamp_normalized_s := r'.timestamp - b.timestamp }
        rw [hrr, h1, ht])
      (a :: as') (b :: bs') h

/-- The Bitmask Generator only reads the channel columns, so it preserves
strip-equality. -/
theorem generate_strip_congr : ∀ (as bs : List Samp),
    as.map strip = bs.map strip →
    (generate_encoder_position_bitmask as).map strip =
      (generate_encoder_position_bitmask bs).map strip := by
  intro as bs h
  cases as with
  | nil =>
    rw [strip_eq_nil h]
  | cons a as' =>
    obtain ⟨b, bs', rfl, hab, htl⟩ := strip_eq_cons h
    have h2 : (a :: a :: as').map strip = (b :: b :: bs').map strip := by
      simp only [List.map_cons, List.cons.injEq]
      refine ⟨hab, hab, ?_⟩
      have := strip_eq_cons h
      simpa using htl
    exact zipWith_strip_congr bitmask_row
      (by
        intro p p' c c' hpp hcc
        show ({ strip c with
            current_position_bitmask := encode_bitmask c.chanA c.chanB,
            previous_position_bitmask := encode_bitmask p.chanA p.chanB } : Samp) =
          { strip c' with
            current_position_bitmask := encode_bitmask c'.chanA c'.chanB,
            previous_position_bitmask := encode_bitmask p'.chanA p'.chanB }
        rw [hcc, strip_chanA hcc, strip_chanB hcc, strip_chanA hpp, strip_chanB hpp])
      (a :: a :: as') (a :: as') (b :: b :: bs') (b :: bs') h2 h

/-- The Redundant-Sample Trimmer only reads the change column, so it
preserves strip-equality. -/
theorem trim_strip_congr : ∀ (as bs : List Samp),
    as.map strip = bs.map strip →
    (trim_redundant_data_points as).map strip =
      (trim_redundant_data_points bs).map strip := by
  intro as
  induction as with
  | nil =>
    intro bs h
    rw [strip_eq_nil h]
  | cons a as ih =>
    intro bs h
    obtain ⟨b, bs', rfl, hab, htl⟩ := strip_eq_cons h
    have hch : a.change_occurred = b.change_occurred := strip_chg hab
    show ((a :: as).filter _).map strip = ((b :: bs').filter _).map strip
    rw [List.filter_cons, List.filter_cons]
    have hpb : (b.change_occurred == 0) = (a.change_occurred == 0) := by rw [hch]
    rw [hpb]
    by_cases h0 : (a.change_occurred == 0) = true
    · rw [if_pos h0, if_pos h0]
      simp only [List.map_cons, List.cons.injEq]
      exact ⟨hab, ih bs' htl⟩
    · rw [if_neg h0, if_neg h0]
      exact ih bs' htl

/-- The Angular Velocity Estimator only reads the angle and normalized
timestamp columns, so it preserves strip-equality. -/
theorem velocity_strip_congr : ∀ (as bs : List Samp),
    as.map strip = bs.map strip →
    (detect_angular_velocity as).map strip = (detect_angular_velocity bs).map strip := by
  intro as bs h
  cases as with
  | nil =>
    rw [strip_eq_nil h]
  | cons a as' =>
    obtain ⟨b, bs', rfl, hab, _htl⟩ := strip_eq_cons h
    have h2 : (a :: a :: as').map strip = (b :: b :: bs').map strip := by
      simp only [List.map_cons, List.cons.injEq]
      refine ⟨hab, hab, ?_⟩
      simpa using _htl
    exact zipWith_strip_congr velocity_row
      (by
        intro p p' c c' hpp hcc
        have htv : track_angular_velocity c p.angle_deg p.timestamp_normalized_s =
            track_angular_velocity c' p'.angle_deg p'.timestamp_normalized_s := by
          rw [show track_angular_velocity c p.angle_deg p.timestamp_normalized_s =
              track_angular_velocity (strip c) p.angle_deg p.timestamp_normalized_s from rfl,
            show track_angular_velocity c' p'.angle_deg p'.timestamp_normalized_s =
              track_angular_velocity (strip c') p'.angle_deg p'.timestamp_normalized_s from rfl,
            hcc, strip_ang hpp, strip_tnorm hpp]
        show ({ strip c with velocity_deg_per_s :=
            track_angular_velocity c p.angle_deg p.timestamp_normalized_s } : Samp) =
          { strip c' with velocity_deg_per_s :=
            track_angular_velocity c' p'.angle_deg p'.timestamp_normalized_s }
        rw [hcc, htv])
      (a :: a :: as') (a :: as') (b :: b :: bs') (b :: bs') h2 h


/-- The change-flag computation only reads the bitmask columns, so it
preserves strip-equality pointwise. -/
theorem set_change_strip_congr (r r' : Samp) (h : strip r = strip r') :
    strip (set_change_occurred r) = strip (set_change_occurred r') := by
  rw [show strip (set_change_occurred r) = set_change_occurred (strip r) from rfl,
      show strip (set_change_occurred r') = set_change_occurred (strip r') from rfl, h]

/-- The Direction Classifier's fold only reads the bitmask and change
columns, so on strip-equal frames it errors identically or produces
strip-equal frames with the same final attribute. -/
theorem dir_fold_strip_congr : ∀ (as bs : List Samp),
    as.map strip = bs.map strip → ∀ d,
    dir_fold_rel (detect_direction_fold d as) (detect_direction_fold d bs) := by
  intro as
  induction as with
  | nil =>
    intro bs h d
    rw [strip_eq_nil h]
    exact ⟨rfl, rfl⟩
  | cons a as ih =>
    intro bs h d
    obtain ⟨b, bs', rfl, hab, htl⟩ := strip_eq_cons h
    have hc : check_direction a = check_direction b := by
      rw [show check_direction a = check_direction (strip a) from rfl,
          show check_direction b = check_direction (strip b) from rfl, hab]
    cases hca : check_direction a with
    | error e =>
      have hcb : check_direction b = .error e := by rw [← hc, hca]
      simp only [detect_direction_fold, hca, hcb]
      exact rfl
    | ok dir =>
      have hcb : check_direction b = .ok dir := by rw [← hc, hca]
      simp only [detect_direction_fold, hca, hcb]
      have hrel := ih bs' htl dir
      cases h1 : detect_direction_fold dir as with
      | error e1 =>
        cases h2 : detect_direction_fold dir bs' with
        | error e2 =>
          rw [h1, h2] at hrel
          exact hrel
        | ok p2 =>
          rw [h1, h2] at hrel
          exact hrel.elim
      | ok p1 =>
        cases h2 : detect_direction_fold dir bs' with
        | error e2 =>
          rw [h1, h2] at hrel
          exact hrel.elim
        | ok p2 =>
          rw [h1, h2] at hrel
          obtain ⟨hl, hd⟩ := hrel
          refine ⟨?_, hd⟩
          simp only [List.map_cons, List.cons.injEq]
          refine ⟨?_, hl⟩
          show ({ strip a with direction := dir } : Samp) = { strip b with direction := dir }
          rw [hab]

/-- The Angular Position Integrator's fold only reads the change and
direction columns, so it preserves strip-equality and reaches the same final
attribute state. -/
theorem change_fold_strip_congr (step : ℚ) : ∀ (as bs : List Samp) (st : AngleAttrs),
    as.map strip = bs.map strip →
    (detect_change_fold step st as).1.map strip =
      (detect_change_fold step st bs).1.map strip ∧
    (detect_change_fold step st as).2 = (detect_change_fold step st bs).2 := by
  intro as
  induction as with
  | nil =>
    intro bs st h
    rw [strip_eq_nil h]
    exact ⟨rfl, rfl⟩
  | cons a as ih =>
    intro bs st h
    obtain ⟨b, bs', rfl, hab, htl⟩ := strip_eq_cons h
    have htr : track_angular_change step st a = track_angular_change step st b := by
      rw [show track_angular_change step st a = track_angular_change step st (strip a) from rfl,
          show track_angular_change step st b = track_angular_change step st (strip b) from rfl,
          hab]
    obtain ⟨h1, h2⟩ := ih bs' (track_angular_change step st a) htl
    simp only [detect_change_fold]
    constructor
    · simp only [List.map_cons, List.cons.injEq]
      refine ⟨?_, ?_⟩
      · show ({ strip a with
            angle_deg := (track_angular_change step st a).current_angle } : Samp) =
          { strip b with angle_deg := (track_angular_change step st b).current_angle }
        rw [hab, htr]
      · rw [← htr]
        exact h1
    · rw [← htr]
      exact h2

/-- Stages 3-5 on strip-equal inputs: identical errors, or strip-equal
annotated frames with identical persistent state. -/
theorem annotate_strip_congr (step : ℚ) (g : PersistentState) (as bs : List Samp)
    (h : as.map strip = bs.map strip) :
    strip_run (annotate_after_origin step g as) =
      strip_run (annotate_after_origin step g bs) := by
  have h1 := normalize_strip_congr as bs h
  have h2 := generate_strip_congr _ _ h1
  have h3 := map_strip_congr set_change_occurred set_change_occurred
    set_change_strip_congr _ _ h2
  have hrel := dir_fold_strip_congr _ _ h3 ""
  simp only [annotate_after_origin, detect_direction_of_motion]
  cases e1 : detect_direction_fold ""
      ((generate_encoder_position_bitmask (normalize_timestamps as)).map
        set_change_occurred) with
  | error m1 =>
    cases e2 : detect_direction_fold ""
        ((generate_encoder_position_bitmask (normalize_timestamps bs)).map
          set_change_occurred) with
    | error m2 =>
      rw [e1, e2] at hrel
      have hm : m1 = m2 := hrel
      show strip_run (.error m1) = strip_run (.error m2)
      rw [hm]
    | ok p2 =>
      rw [e1, e2] at hrel
      exact hrel.elim
  | ok p1 =>
    cases e2 : detect_direction_fold ""
        ((generate_encoder_position_bitmask (normalize_timestamps bs)).map
          set_change_occurred) with
    | error m2 =>
      rw [e1, e2] at hrel
      exact hrel.elim
    | ok p2 =>
      rw [e1, e2] at hrel
      obtain ⟨hl, hd⟩ := hrel
      have hc := change_fold_strip_congr step p1.1 p2.1 ⟨none, 0⟩ hl
      show Except.ok (((detect_change_fold step ⟨none, 0⟩ p1.1).1).map strip,
          (⟨p1.2, none, 0⟩ : PersistentState)) =
        .ok (((detect_change_fold step ⟨none, 0⟩ p2.1).1).map strip,
          (⟨p2.2, none, 0⟩ : PersistentState))
      rw [hc.1, hd]

/-- The tail of the pipeline on strip-equal inputs: identical errors, or
strip-equal outputs with identical persistent state. -/
theorem run_rest_strip_congr (step : ℚ) (g : PersistentState) (as bs : List Samp)
    (h : as.map strip = bs.map strip) :
    strip_run (run_rest step g as) = strip_run (run_rest step g bs) := by
  have hann := annotate_strip_congr step g as bs h
  simp only [run_rest]
  cases e1 : annotate_after_origin step g as with
  | error m1 =>
    cases e2 : annotate_after_origin step g bs with
    | error m2 =>
      rw [e1, e2] at hann
      have hm : m1 = m2 := Except.error.inj hann
      show strip_run (.error m1) = strip_run (.error m2)
      rw [hm]
    | ok p2 =>
      rw [e1, e2] at hann
      exact Except.noConfusion hann
  | ok p1 =>
    cases e2 : annotate_after_origin step g bs with
    | error m2 =>
      rw [e1, e2] at hann
      exact Except.noConfusion hann
    | ok p2 =>
      rw [e1, e2] at hann
      have h' := Except.ok.inj hann
      have hl : p1.1.map strip = p2.1.map strip :=
        ((Prod.mk.injEq _ _ _ _).mp h').1
      have hgF : p1.2 = p2.2 := ((Prod.mk.injEq _ _ _ _).mp h').2
      show Except.ok ((detect_angular_velocity
          (trim_redundant_data_points p1.1)).map strip, p1.2) =
        .ok ((detect_angular_velocity
          (trim_redundant_data_points p2.1)).map strip, p2.2)
      rw [velocity_strip_congr _ _ (trim_strip_congr _ _ hl), hgF]

/-- The Stable-Origin Detector only writes the `matches_initial_position`
column: its output is strip-equal to its input. -/
theorem detector_strip (xs : List Samp) :
    ((detect_initial_stable_angular_position xs).1).map strip = xs.map strip := by
  cases xs with
  | nil => rfl
  | cons x0 rest =>
    have h : (detect_initial_stable_angular_position (x0 :: rest)).1 =
        (x0 :: rest).map (fun r => { r with matches_initial_position :=
          if r.chanA == x0.chanA && r.chanB == x0.chanB then 1 else 0 }) := rfl
    rw [h, List.map_map]
    rfl


/-- Entries before the first hit of a boolean series are all `false`. -/
theorem idxmax_bool_prefix : ∀ (bs : List Bool) (j : Nat), j < idxmax_bool bs →
    bs.getD j false = false := by
  intro bs
  induction bs with
  | nil =>
    intro j h
    simp [idxmax_bool] at h
  | cons b bs ih =>
    intro j h
    by_cases hb : b = true
    · simp [idxmax_bool, hb] at h
    · have hb' : b = false := by simpa using hb
      subst hb'
      simp only [idxmax_bool, Bool.false_eq_true, if_false] at h
      cases j with
      | zero => rfl
      | succ k => exact ih k (Nat.lt_of_succ_lt_succ h)

/-- When some entry of a boolean series holds, `idxmax_bool` is in range and
points at a `true` entry. -/
theorem idxmax_bool_hit : ∀ (bs : List Bool), bs.any id = true →
    idxmax_bool bs < bs.length ∧ bs.getD (idxmax_bool bs) false = true := by
  intro bs
  induction bs with
  | nil =>
    intro h
    simp at h
  | cons b bs ih =>
    intro h
    by_cases hb : b = true
    · refine ⟨?_, ?_⟩ <;> simp [idxmax_bool, hb]
    · have hb' : b = false := by simpa using hb
      subst hb'
      have hbs : bs.any id = true := by simpa using h
      obtain ⟨h1, h2⟩ := ih hbs
      refine ⟨?_, ?_⟩
      · simp only [idxmax_bool, Bool.false_eq_true, if_false, List.length_cons]
        omega
      · simpa [idxmax_bool] using h2

/-- When no entry of a boolean series holds, every lookup is `false`. -/
theorem any_false_all : ∀ (bs : List Bool), bs.any id = false →
    ∀ j, bs.getD j false = false := by
  intro bs
  induction bs with
  | nil =>
    intro _h j
    cases j <;> rfl
  | cons b bs ih =>
    intro h j
    have hb : b = false := by
      cases b
      · rfl
      · simp at h
    have hbs : bs.any id = false := by
      simpa [hb] using h
    cases j with
    | zero => simpa using hb
    | succ k => exact ih hbs k

/-- Lookup through a boolean map stays in step with the rows. -/
theorem getD_map_flag (f : Samp → Bool) : ∀ (xs : List Samp) (j : Nat),
    j < xs.length → (xs.map f).getD j false = f (xs.getD j dummySamp) := by
  intro xs
  induction xs with
  | nil =>
    intro j h
    simp at h
  | cons a as ih =>
    intro j h
    cases j with
    | zero => rfl
    | succ k => exact ih k (by simpa using Nat.lt_of_succ_lt_succ h)

/-- Two list maps agree when the functions agree pointwise. -/
theorem map_ext_bool (f g : Samp → Bool) (hfg : ∀ r, f r = g r) :
    ∀ (l : List Samp), l.map f = l.map g := by
  intro l
  induction l with
  | nil => rfl
  | cons a as ih => simp only [List.map_cons, hfg a, ih]


/-- C9: the Stable-Origin Detector is read-only on the sample data: it
preserves every pre-existing column (`strip` forgets only the
`matches_initial_position` column it adds) and the frame's length; its
reported index is the first index whose channel reading differs from the
initial reading, or 0 (the no-motion report) when no sample differs; and the
added column feeds nothing downstream: the pipeline's output is, modulo that
column, the output of the pipeline run without the detector. -/
theorem c9_stable_origin_detector (step : ℚ) (g : PersistentState)
    (xs : List Samp) (x0 : Samp) (rest : List Samp) (hx : xs = x0 :: rest) :
    ((detect_initial_stable_angular_position xs).1).map strip = xs.map strip ∧
    ((detect_initial_stable_angular_position xs).1).length = xs.length ∧
    (∀ j, j < (detect_initial_stable_angular_position xs).2 → j < xs.length →
      ((xs.getD j dummySamp).chanA = x0.chanA ∧
       (xs.getD j dummySamp).chanB = x0.chanB)) ∧
    ((detect_initial_stable_angular_position xs).2 ≠ 0 →
      (detect_initial_stable_angular_position xs).2 < xs.length ∧
      ¬((xs.getD (detect_initial_stable_angular_position xs).2 dummySamp).chanA = x0.chanA ∧
        (xs.getD (detect_initial_stable_angular_position xs).2 dummySamp).chanB = x0.chanB)) ∧
    ((detect_initial_stable_angular_position xs).2 = 0 →
      ∀ j, j < xs.length →
        ((xs.getD j dummySamp).chanA = x0.chanA ∧
         (xs.getD j dummySamp).chanB = x0.chanB)) ∧
    strip_run (run_pipeline step g xs) = strip_run (run_rest step g xs) := by
  subst hx
  have hFF : ((x0 :: rest).map (fun r => { r with matches_initial_position :=
        if r.chanA == x0.chanA && r.chanB == x0.chanB then 1 else 0 })).map
        (fun r => decide (r.matches_initial_position < 1)) =
      (x0 :: rest).map (fun r => !(r.chanA == x0.chanA && r.chanB == x0.chanB)) := by
    rw [List.map_map]
    refine map_ext_bool _ _ ?_ _
    intro r
    cases hcond : (r.chanA == x0.chanA && r.chanB == x0.chanB) <;>
      simp [Function.comp, hcond]
  have h2 : (detect_initial_stable_angular_position (x0 :: rest)).2 =
      idxmax_bool_total ((x0 :: rest).map
        (fun r => !(r.chanA == x0.chanA && r.chanB == x0.chanB))) := by
    have e : (detect_initial_stable_angular_position (x0 :: rest)).2 =
        idxmax_bool_total (((x0 :: rest).map
          (fun r => ({ r with matches_initial_position :=
            if r.chanA == x0.chanA && r.chanB == x0.chanB then 1 else 0 } : Samp))).map
          (fun r => decide (r.matches_initial_position < 1))) := rfl
    rw [e, hFF]
  set bs : List Bool := (x0 :: rest).map
    (fun r => !(r.chanA == x0.chanA && r.chanB == x0.chanB)) with hbs
  have hget : ∀ j, j < (x0 :: rest).length → bs.getD j false =
      !( ((x0 :: rest).getD j dummySamp).chanA == x0.chanA &&
         ((x0 :: rest).getD j dummySamp).chanB == x0.chanB) := by
    intro j hj
    rw [hbs]
    exact getD_map_flag _ (x0 :: rest) j hj
  have hmatch : ∀ r : Samp,
      (!(r.chanA == x0.chanA && r.chanB == x0.chanB)) = false ↔
      (r.chanA = x0.chanA ∧ r.chanB = x0.chanB) := by
    intro r
    simp
  refine ⟨detector_strip (x0 :: rest), by simp [detect_initial_stable_angular_position],
    ?_, ?_, ?_, ?_⟩
  · intro j hj hjlen
    rw [h2] at hj
    by_cases hany : bs.any id = true
    · rw [show idxmax_bool_total bs = idxmax_bool bs from by
        simp [idxmax_bool_total, hany]] at hj
      have hfalse := idxmax_bool_prefix bs j hj
      rw [hget j hjlen] at hfalse
      exact (hmatch _).mp hfalse
    · have hany' : bs.any id = false := by simpa using hany
      rw [show idxmax_bool_total bs = 0 from by
        simp [idxmax_bool_total, hany']] at hj
      exact absurd hj (Nat.not_lt_zero j)
  · intro hne
    rw [h2] at hne ⊢
    by_cases hany : bs.any id = true
    · have heq : idxmax_bool_total bs = idxmax_bool bs := by
        simp [idxmax_bool_total, hany]
      rw [heq] at hne ⊢
      obtain ⟨hlt, hhit⟩ := idxmax_bool_hit bs hany
      have hlt' : idxmax_bool bs < (x0 :: rest).length := by
        rw [← show bs.length = (x0 :: rest).length from by simp [hbs]]
        exact hlt
      refine ⟨hlt', ?_⟩
      intro hcontra
      have hcv := (hmatch ((x0 :: rest).getD (idxmax_bool bs) dummySamp)).mpr hcontra
      rw [hget _ hlt'] at hhit
      rw [hcv] at hhit
      exact absurd hhit (by simp)
    · have hany' : bs.any id = false := by simpa using hany
      rw [show idxmax_bool_total bs = 0 from by
        simp [idxmax_bool_total, hany']] at hne
      exact absurd rfl hne
  · intro h0 j hjlen
    rw [h2] at h0
    by_cases hany : bs.any id = true
    · have heq : idxmax_bool_total bs = idxmax_bool bs := by
        simp [idxmax_bool_total, hany]
      rw [heq] at h0
      obtain ⟨_hlt, hhit⟩ := idxmax_bool_hit bs hany
      rw [h0] at hhit
      have hzero : bs.getD 0 false = false := by
        have hl0 : 0 < (x0 :: rest).length := by simp
        rw [hget 0 hl0]
        apply (hmatch _).mpr
        exact ⟨rfl, rfl⟩
      rw [hzero] at hhit
      exact absurd hhit (by simp)
    · have hany' : bs.any id = false := by simpa using hany
      have hfalse := any_false_all bs hany' j
      rw [hget j hjlen] at hfalse
      exact (hmatch _).mp hfalse
  · show strip_run (run_rest step g
        (detect_initial_stable_angular_position (x0 :: rest)).1) =
      strip_run (run_rest step g (x0 :: rest))
    exact run_rest_strip_congr step g _ _ (detector_strip (x0 :: rest))

/-- C9 witness: the detector on the one-row capture leaves every original
column unchanged. -/
theorem c9_witness :
    ((detect_initial_stable_angular_position one_row_capture).1).map strip =
      one_row_capture.map strip :=
  (c9_stable_origin_detector 90 g0 one_row_capture (mkRaw 0 false false) [] rfl).1

end Enc
